import Mathlib

/-!
Shallow embedding of the DC resistive circuit solver (Modified Nodal Analysis)
and its dense linear solver, together with the downstream answer-tolerance
check.  Real numbers of the source are modelled as rationals; JS records
(string-keyed maps) are modelled as functions `String → Option ℚ` updated
left to right; matrices under construction are functions `Nat → Nat → ℚ`
that start at zero and accumulate stamps, and are converted to row lists
before the linear solve.  Fallible code returns `Except MnaError`.
-/

namespace Circuits

/-- Absolute value as the source computes it (`Math.abs`). -/
def qabs (q : ℚ) : ℚ := if q < 0 then -q else q

instance {ε α : Type} [DecidableEq ε] [DecidableEq α] : DecidableEq (Except ε α) :=
  fun x y =>
    match x, y with
    | .ok a, .ok b =>
      if h : a = b then isTrue (by rw [h]) else
        isFalse (fun hc => h (by injection hc))
    | .error a, .error b =>
      if h : a = b then isTrue (by rw [h]) else
        isFalse (fun hc => h (by injection hc))
    | .ok _, .error _ => isFalse (fun hc => Except.noConfusion hc)
    | .error _, .ok _ => isFalse (fun hc => Except.noConfusion hc)

/-- `getD` for `Except` (used only to name concrete solver outputs in
closed statements). -/
def exceptD {ε α : Type} (x : Except ε α) (d : α) : α :=
  match x with
  | .ok a => a
  | .error _ => d

/-- Error taxonomy of the core (each `throw` site mapped to a kind). -/
inductive MnaError where
  | insufficientNodes
  | invalidReferenceNode (n : String)
  | invalidElement (id : String)
  | dimensionMismatch
  | singularMatrix
deriving DecidableEq, Repr

/-! ## Data model (src/core/types.ts) -/

structure Resistor where
  id : String
  a : String
  b : String
  ohms : ℚ
deriving DecidableEq, Repr

structure VSource where
  id : String
  a : String
  b : String
  volts : ℚ
deriving DecidableEq, Repr

structure ISource where
  id : String
  a : String
  b : String
  amps : ℚ
deriving DecidableEq, Repr

inductive Element where
  | R (r : Resistor)
  | V (v : VSource)
  | I (s : ISource)
deriving DecidableEq, Repr

/-- Circuit: ordered node list plus ordered element list.  (The optional
`terminals` field of the source is never read by the solver and is not
modelled; Req terminals are passed explicitly.) -/
structure Circuit where
  nodes : List String
  elements : List Element
deriving DecidableEq, Repr

/-- Node voltages and element currents of a solve. -/
structure Solution where
  refNode : String
  V : String → Option ℚ
  I : String → Option ℚ

def elemId : Element → String
  | .R r => r.id
  | .V v => v.id
  | .I s => s.id

/-! ## Dense linear solver (linalg.ts) -/

/-- Entry `M[i][j]` with JS-style out-of-range reads mapped to 0. -/
def getM (M : List (List ℚ)) (i j : Nat) : ℚ := (M.getD i []).getD j 0

/-- The partial-pivot search of the elimination loop: scan rows `col+1 … n-1`
keeping the row of strictly largest `|M[r][col]|`; start at the diagonal. -/
def findPivot (M : List (List ℚ)) (col n : Nat) : Nat × ℚ :=
  (List.range' (col + 1) (n - (col + 1))).foldl
    (fun acc r =>
      let v := qabs (getM M r col)
      if acc.2 < v then (r, v) else acc)
    (col, qabs (getM M col col))

/-- Swap rows `i` and `j` of `M`. -/
def swapRows (M : List (List ℚ)) (i j : Nat) : List (List ℚ) :=
  (List.range M.length).map (fun r =>
    if r = i then M.getD j [] else if r = j then M.getD i [] else M.getD r [])

/-- Eliminate one row below the pivot row: subtract `factor` times the pivot
row from it, for columns `col … n` of the augmented matrix. -/
def elimRow (pRow : List ℚ) (col : Nat) (row : List ℚ) : List ℚ :=
  let factor := row.getD col 0 / pRow.getD col 0
  if factor = 0 then row
  else (List.range row.length).map (fun c =>
    if col ≤ c then row.getD c 0 - factor * pRow.getD c 0 else row.getD c 0)

/-- One column step of forward elimination: pick the pivot, fail on an exact
zero, swap it up, and eliminate every row strictly below. -/
def elimStep (n : Nat) (M : List (List ℚ)) (col : Nat) :
    Except MnaError (List (List ℚ)) :=
  let fp := findPivot M col n
  if fp.2 = 0 then .error .singularMatrix
  else
    let M1 := swapRows M col fp.1
    let pr := M1.getD col []
    .ok ((List.range M1.length).map (fun r =>
      if col < r then elimRow pr col (M1.getD r []) else M1.getD r []))

/-- Back-substitution, from row `i-1` down to row 0; `acc` already holds the
unknowns for rows `i … n-1`. -/
def backSubstAux (M : List (List ℚ)) (n : Nat) : Nat → List ℚ → List ℚ
  | 0, acc => acc
  | i + 1, acc =>
    let s := (List.range' (i + 1) (n - (i + 1))).foldl
      (fun s j => s - getM M i j * acc.getD (j - (i + 1)) 0) (getM M i n)
    backSubstAux M n i (s / getM M i i :: acc)

def backSubst (n : Nat) (M : List (List ℚ)) : List ℚ := backSubstAux M n n []

/-- Augmented matrix `[A | b]`. -/
def augment (A : List (List ℚ)) (b : List ℚ) : List (List ℚ) :=
  (A.zip b).map (fun p => p.1 ++ [p.2])

/-- Gaussian elimination with partial pivoting (linalg.ts
`solveLinearSystem`). -/
def solveLinearSystem (A : List (List ℚ)) (b : List ℚ) :
    Except MnaError (List ℚ) :=
  let n := A.length
  if _h : ∀ row ∈ A, row.length = n then
    if _hb : b.length = n then
      match (List.range n).foldlM (elimStep n) (augment A b) with
      | .error e => .error e
      | .ok M => .ok (backSubst n M)
    else .error .dimensionMismatch
  else .error .dimensionMismatch

/-! ## MNA assembler and solver (mna.ts) -/

def preferredRefs : List String := ["0", "GND", "gnd", "ref", "REF"]

/-- Reference-node default: first preferred name present, else the first
node. -/
def pickRefNode (nodes : List String) : String :=
  match preferredRefs.find? (fun p => decide (p ∈ nodes)) with
  | some p => p
  | none => nodes.headD ""

/-- Non-reference nodes, in original order; these carry the voltage
unknowns. -/
def vuNodes (c : Circuit) (ref : String) : List String :=
  c.nodes.filter (fun n => n ≠ ref)

/-- `Map.set`-style index build: the last occurrence of a node wins. -/
def lastIdxAux (n : String) : List String → Nat → Option Nat → Option Nat
  | [], _, acc => acc
  | x :: rest, i, acc => lastIdxAux n rest (i + 1) (if x = n then some i else acc)

/-- `nodeIndex.get`: the voltage-unknown index of a node, `none` for the
reference node (and for nodes outside the circuit). -/
def nodeIdx (c : Circuit) (ref : String) : String → Option Nat :=
  fun n => lastIdxAux n (vuNodes c ref) 0 none

def vSourcesOf (els : List Element) : List VSource :=
  els.filterMap (fun e => match e with | .V v => some v | _ => none)

/-- Additive matrix write `A[i][j] += v`. -/
def upd2 (A : Nat → Nat → ℚ) (i j : Nat) (v : ℚ) : Nat → Nat → ℚ :=
  fun p q => if p = i ∧ q = j then A p q + v else A p q

/-- Additive RHS write `z[i] += v`. -/
def upd1 (z : Nat → ℚ) (i : Nat) (v : ℚ) : Nat → ℚ :=
  fun p => if p = i then z p + v else z p

/-- Overwriting RHS write `z[i] = v`. -/
def setZ (z : Nat → ℚ) (i : Nat) (v : ℚ) : Nat → ℚ :=
  fun p => if p = i then v else z p

/-- Record write `rec[k] = v`. -/
def updS (f : String → Option ℚ) (k : String) (v : ℚ) : String → Option ℚ :=
  fun s => if s = k then some v else f s

/-- Conductance stamp of a single resistor: diagonal adds at each
non-reference endpoint, symmetric off-diagonal subtractions when both
endpoints are non-reference. -/
def stampR (ni : String → Option Nat) (A : Nat → Nat → ℚ) (r : Resistor) :
    Nat → Nat → ℚ :=
  let g := 1 / r.ohms
  match ni r.a, ni r.b with
  | some ia, some ib => upd2 (upd2 (upd2 (upd2 A ia ia g) ib ib g) ia ib (-g)) ib ia (-g)
  | some ia, none => upd2 A ia ia g
  | none, some ib => upd2 A ib ib g
  | none, none => A

/-- Stamp every resistor; a non-positive resistance aborts the solve. -/
def stampResistors (ni : String → Option Nat) :
    List Element → (Nat → Nat → ℚ) → Except MnaError (Nat → Nat → ℚ)
  | [], A => .ok A
  | .R r :: rest, A =>
    if r.ohms ≤ 0 then .error (.invalidElement r.id)
    else stampResistors ni rest (stampR ni A r)
  | _ :: rest, A => stampResistors ni rest A

/-- Stamp every current source into the RHS: inject `-amps` at `a`,
`+amps` at `b`, skipping reference endpoints. -/
def stampISources (ni : String → Option Nat) :
    List Element → (Nat → ℚ) → (Nat → ℚ)
  | [], z => z
  | .I s :: rest, z =>
    let z1 := match ni s.a with | some ia => upd1 z ia (-s.amps) | none => z
    let z2 := match ni s.b with | some ib => upd1 z1 ib s.amps | none => z1
    stampISources ni rest z2
  | _ :: rest, z => stampISources ni rest z

/-- Matrix part of one voltage-source stamp at auxiliary index `col`:
KCL coupling column entries `±1`, then voltage-constraint row entries `±1`,
skipping reference endpoints. -/
def stampV1 (ni : String → Option Nat) (col : Nat) (v : VSource)
    (A : Nat → Nat → ℚ) : Nat → Nat → ℚ :=
  let A1 := match ni v.a with | some ra => upd2 A ra col 1 | none => A
  let A2 := match ni v.b with | some rb => upd2 A1 rb col (-1) | none => A1
  let A3 := match ni v.a with | some ra => upd2 A2 col ra 1 | none => A2
  match ni v.b with | some rb => upd2 A3 col rb (-1) | none => A3

/-- Stamp every voltage source: KCL coupling column, voltage-constraint row
and its RHS, at auxiliary index `m + i` for the `i`-th source. -/
def stampVSources (ni : String → Option Nat) (m : Nat) :
    List VSource → Nat → ((Nat → Nat → ℚ) × (Nat → ℚ)) →
    ((Nat → Nat → ℚ) × (Nat → ℚ))
  | [], _, Az => Az
  | v :: rest, i, Az =>
    stampVSources ni m rest (i + 1)
      (stampV1 ni (m + i) v Az.1, setZ Az.2 (m + i) v.volts)

/-- Assemble the MNA system `(A, z)` of a circuit for a given reference
node (resistors, then current sources, then voltage sources). -/
def assemble (c : Circuit) (ref : String) :
    Except MnaError ((Nat → Nat → ℚ) × (Nat → ℚ)) :=
  let ni := nodeIdx c ref
  match stampResistors ni c.elements (fun _ _ => 0) with
  | .error e => .error e
  | .ok A0 =>
    let z0 := stampISources ni c.elements (fun _ => 0)
    .ok (stampVSources ni (vuNodes c ref).length (vSourcesOf c.elements) 0 (A0, z0))

/-- Total unknown count `N = m + k`. -/
def dimN (c : Circuit) (ref : String) : Nat :=
  (vuNodes c ref).length + (vSourcesOf c.elements).length

def toMat (A : Nat → Nat → ℚ) (N : Nat) : List (List ℚ) :=
  (List.range N).map (fun i => (List.range N).map (fun j => A i j))

def toVec (z : Nat → ℚ) (N : Nat) : List ℚ :=
  (List.range N).map z

/-- Assemble and solve: the raw unknown vector `x`. -/
def solveVec (c : Circuit) (ref : String) : Except MnaError (List ℚ) :=
  match assemble c ref with
  | .error e => .error e
  | .ok Az => solveLinearSystem (toMat Az.1 (dimN c ref)) (toVec Az.2 (dimN c ref))

/-- `V[refNode] = 0` then `V[n_i] = x[i]` over the non-reference nodes in
order. -/
def writeV (x : List ℚ) : List String → Nat → (String → Option ℚ) →
    (String → Option ℚ)
  | [], _, V => V
  | n :: rest, i, V => writeV x rest (i + 1) (updS V n (x.getD i 0))

/-- `I[vs.id] = x[m + i]` over the voltage sources in order. -/
def writeIvs (x : List ℚ) (m : Nat) : List VSource → Nat →
    (String → Option ℚ) → (String → Option ℚ)
  | [], _, I => I
  | v :: rest, i, I => writeIvs x m rest (i + 1) (updS I v.id (x.getD (m + i) 0))

/-- `I[r.id] = (V[a] − V[b]) / ohms` over the resistors, from the solved
voltages. -/
def writeIres (V : String → Option ℚ) : List Element →
    (String → Option ℚ) → (String → Option ℚ)
  | [], I => I
  | .R r :: rest, I =>
    writeIres V rest (updS I r.id (((V r.a).getD 0 - (V r.b).getD 0) / r.ohms))
  | _ :: rest, I => writeIres V rest I

/-- `I[s.id] = amps` over the current sources. -/
def writeIcs : List Element → (String → Option ℚ) → (String → Option ℚ)
  | [], I => I
  | .I s :: rest, I => writeIcs rest (updS I s.id s.amps)
  | _ :: rest, I => writeIcs rest I

/-- Reconstruct the `Solution` from the raw unknown vector. -/
def buildSolution (c : Circuit) (ref : String) (x : List ℚ) : Solution :=
  let vu := vuNodes c ref
  let V := writeV x vu 0 (updS (fun _ => none) ref 0)
  let I1 := writeIvs x vu.length (vSourcesOf c.elements) 0 (fun _ => none)
  let I2 := writeIres V c.elements I1
  ⟨ref, V, writeIcs c.elements I2⟩

/-- The MNA solver (mna.ts `solveCircuitMNA`). -/
def solveCircuitMNA (c : Circuit) (refOpt : Option String) :
    Except MnaError Solution :=
  if c.nodes.length < 2 then .error .insufficientNodes
  else
    let ref := refOpt.getD (pickRefNode c.nodes)
    if ref ∈ c.nodes then
      match solveVec c ref with
      | .error e => .error e
      | .ok x => .ok (buildSolution c ref x)
    else .error (.invalidReferenceNode ref)

/-- `V[a] − V[b]` with absent nodes read as 0. -/
def voltageDiff (sol : Solution) (a b : String) : ℚ :=
  (sol.V a).getD 0 - (sol.V b).getD 0

/-- Source-deactivation step of the Req transform: resistors pass, voltage
sources become 0 V copies, current sources are dropped. -/
def reqDeactivate : Element → Option Element
  | .R r => some (.R r)
  | .V v => some (.V { v with volts := 0 })
  | .I _ => none

/-- Thevenin-equivalent resistance between `A` and `B` (mna.ts
`equivalentResistanceAB`). -/
def equivalentResistanceAB (c : Circuit) (A B : String) : Except MnaError ℚ :=
  let els := c.elements.filterMap reqDeactivate ++ [Element.I ⟨"I_test", A, B, 1⟩]
  match solveCircuitMNA ⟨c.nodes, els⟩ none with
  | .error e => .error e
  | .ok sol => .ok (qabs (voltageDiff sol A B))

/-! ## Downstream answer validation (validate.ts) -/

structure Tolerances where
  abs : ℚ
  rel : ℚ
deriving DecidableEq, Repr

def defaultTol : Tolerances := ⟨1 / 100, 1 / 100⟩

structure CheckResult where
  ok : Bool
  expected : ℚ
  got : ℚ
  absErr : ℚ
  relErr : ℚ
deriving DecidableEq, Repr

/-- Tiny positive floor protecting the relative-error division (`1e-12`). -/
def epsFloor : ℚ := 1 / 1000000000000

/-- The tolerance comparison of validate.ts `check`. -/
def check (expected got : ℚ) (tol : Tolerances) : CheckResult :=
  let absErr := qabs (got - expected)
  let denom := max epsFloor (qabs expected)
  let relErr := absErr / denom
  ⟨decide (absErr ≤ tol.abs) || decide (relErr ≤ tol.rel),
    expected, got, absErr, relErr⟩

/-! ## Spec-side definitions and concrete circuits -/

/-- Modelled from the spec's words for the Req transform (§4.4): every
Resistor passes through unchanged, every VoltageSource is replaced by a
0 V copy, every CurrentSource is dropped. -/
def reqDeactivateSpec : Element → Option Element
  | .R r => some (.R r)
  | .V v => some (.V ⟨v.id, v.a, v.b, 0⟩)
  | .I _ => none

/-- Swap the `a`/`b` endpoints of a resistor. -/
def swapAB (r : Resistor) : Resistor := ⟨r.id, r.b, r.a, r.ohms⟩

/-- The voltage-divider regression circuit of the test suite. -/
def divider : Circuit :=
  ⟨["0", "n1", "n2"],
   [.V ⟨"V1", "n1", "0", 10⟩, .R ⟨"R1", "n1", "n2", 1000⟩,
    .R ⟨"R2", "n2", "0", 1000⟩]⟩

/-- The divider with `R1`'s endpoints swapped. -/
def dividerSwapped : Circuit :=
  ⟨["0", "n1", "n2"],
   [.V ⟨"V1", "n1", "0", 10⟩, .R ⟨"R1", "n2", "n1", 1000⟩,
    .R ⟨"R2", "n2", "0", 1000⟩]⟩

/-- Two parallel resistors (100 Ω ∥ 300 Ω) between `A` and `B`. -/
def parCircuit : Circuit :=
  ⟨["A", "B"], [.R ⟨"R1", "A", "B", 100⟩, .R ⟨"R2", "A", "B", 300⟩]⟩

/-- A circuit carrying a resistor with non-positive resistance. -/
def badOhms : Circuit :=
  ⟨["0", "n1"], [.R ⟨"Rbad", "n1", "0", 0⟩]⟩

/-- Placeholder solution used only to name concrete solver outputs. -/
def defSol : Solution := ⟨"", fun _ => none, fun _ => none⟩

/-! ## Helper lemmas -/

lemma qabs_nonneg (q : ℚ) : 0 ≤ qabs q := by
  unfold qabs
  split_ifs with h
  · linarith
  · exact not_lt.mp h

lemma reqDeactivate_eq_spec : reqDeactivate = reqDeactivateSpec := by
  funext e
  cases e with
  | R r => rfl
  | V v => rfl
  | I s => rfl

lemma elimStep_error_eq (n : Nat) (M : List (List ℚ)) (col : Nat) (e : MnaError)
    (h : elimStep n M col = .error e) : e = .singularMatrix := by
  simp only [elimStep] at h
  by_cases h0 : (findPivot M col n).2 = 0
  · rw [if_pos h0] at h
    exact (Except.error.inj h).symm
  · rw [if_neg h0] at h
    exact absurd h (by simp)

lemma foldlM_elimStep_error (n : Nat) (cols : List Nat) :
    ∀ M e, cols.foldlM (elimStep n) M = .error e → e = .singularMatrix := by
  induction cols with
  | nil =>
    intro M e h
    simp [List.foldlM_nil, pure, Except.pure] at h
  | cons c cs ih =>
    intro M e h
    rw [List.foldlM_cons] at h
    cases hc : elimStep n M c with
    | error e2 =>
      rw [hc] at h
      simp only [Bind.bind, Except.bind] at h
      exact (Except.error.inj h) ▸ elimStep_error_eq n M c e2 hc
    | ok M2 =>
      rw [hc] at h
      simp only [Bind.bind, Except.bind] at h
      exact ih M2 e h

lemma solveLinearSystem_not_dim (A : List (List ℚ)) (b : List ℚ)
    (hsq : ∀ row ∈ A, row.length = A.length) (hb : b.length = A.length) :
    solveLinearSystem A b ≠ .error .dimensionMismatch := by
  unfold solveLinearSystem
  rw [dif_pos hsq, dif_pos hb]
  intro h
  cases he : (List.range A.length).foldlM (elimStep A.length) (augment A b) with
  | error e =>
    rw [he] at h
    have := foldlM_elimStep_error A.length (List.range A.length) (augment A b) e he
    subst this
    exact MnaError.noConfusion (Except.error.inj h)
  | ok M =>
    rw [he] at h
    exact Except.noConfusion h

lemma stampResistors_error_form (ni : String → Option Nat) (els : List Element) :
    ∀ A e, stampResistors ni els A = .error e → ∃ i, e = .invalidElement i := by
  induction els with
  | nil =>
    intro A e h
    exact absurd h (by simp [stampResistors])
  | cons e2 rest ih =>
    intro A e h
    cases e2 with
    | R r =>
      by_cases h0 : r.ohms ≤ 0
      · refine ⟨r.id, ?_⟩
        simp only [stampResistors, if_pos h0] at h
        exact (Except.error.inj h).symm
      · simp only [stampResistors, if_neg h0] at h
        exact ih _ e h
    | V v =>
      simp only [stampResistors] at h
      exact ih _ e h
    | I s =>
      simp only [stampResistors] at h
      exact ih _ e h

lemma stampResistors_bad (ni : String → Option Nat) (els : List Element) :
    ∀ (A : Nat → Nat → ℚ) (r : Resistor), Element.R r ∈ els → r.ohms ≤ 0 →
      ∃ i, stampResistors ni els A = .error (.invalidElement i) := by
  induction els with
  | nil =>
    intro A r h
    exact absurd h (List.not_mem_nil _)
  | cons e rest ih =>
    intro A r hmem hle
    cases e with
    | R r2 =>
      by_cases h0 : r2.ohms ≤ 0
      · exact ⟨r2.id, by simp [stampResistors, h0]⟩
      · have hr : Element.R r ∈ rest := by
          rcases List.mem_cons.mp hmem with heq | h
          · injection heq with h3
            subst h3
            exact absurd hle h0
          · exact h
        obtain ⟨i, hi⟩ := ih (stampR ni A r2) r hr hle
        exact ⟨i, by simp [stampResistors, h0, hi]⟩
    | V v =>
      have hr : Element.R r ∈ rest := by
        rcases List.mem_cons.mp hmem with heq | h
        · exact absurd heq (by simp)
        · exact h
      obtain ⟨i, hi⟩ := ih A r hr hle
      exact ⟨i, by simp [stampResistors, hi]⟩
    | I s =>
      have hr : Element.R r ∈ rest := by
        rcases List.mem_cons.mp hmem with heq | h
        · exact absurd heq (by simp)
        · exact h
      obtain ⟨i, hi⟩ := ih A r hr hle
      exact ⟨i, by simp [stampResistors, hi]⟩

lemma assemble_error_form (c : Circuit) (ref : String) (e : MnaError)
    (h : assemble c ref = .error e) : ∃ i, e = .invalidElement i := by
  cases hs : stampResistors (nodeIdx c ref) c.elements (fun _ _ => 0) with
  | error e2 =>
    simp only [assemble, hs] at h
    exact (Except.error.inj h) ▸ stampResistors_error_form _ _ _ e2 hs
  | ok A0 =>
    simp only [assemble, hs] at h
    exact Except.noConfusion h

lemma solveVec_not_dim (c : Circuit) (ref : String) :
    solveVec c ref ≠ .error .dimensionMismatch := by
  unfold solveVec
  cases ha : assemble c ref with
  | error e =>
    intro h
    obtain ⟨i, hi⟩ := assemble_error_form c ref e ha
    subst hi
    exact MnaError.noConfusion (Except.error.inj h)
  | ok Az =>
    apply solveLinearSystem_not_dim
    · intro row hrow
      simp only [toMat, List.mem_map, List.mem_range] at hrow
      obtain ⟨i, _, rfl⟩ := hrow
      simp [toMat]
    · simp [toMat, toVec]

lemma upd2_apply (A : Nat → Nat → ℚ) (p q : Nat) (v : ℚ) (i j : Nat) :
    upd2 A p q v i j = A i j + if i = p ∧ j = q then v else 0 := by
  unfold upd2
  split_ifs <;> simp

lemma ite_and_swap (v : ℚ) (i j p q : Nat) :
    (if i = p ∧ j = q then v else 0) = (if j = q ∧ i = p then v else 0) := by
  by_cases h1 : i = p <;> by_cases h2 : j = q <;> simp [h1, h2]

lemma sym_upd2_diag (A : Nat → Nat → ℚ) (d : Nat) (v : ℚ)
    (h : ∀ i j, A i j = A j i) :
    ∀ i j, upd2 A d d v i j = upd2 A d d v j i := by
  intro i j
  simp only [upd2_apply]
  rw [h i j, ite_and_swap]

lemma sym_upd2_pair (A : Nat → Nat → ℚ) (p q : Nat) (v : ℚ)
    (h : ∀ i j, A i j = A j i) :
    ∀ i j, upd2 (upd2 A p q v) q p v i j = upd2 (upd2 A p q v) q p v j i := by
  intro i j
  simp only [upd2_apply]
  rw [h i j, ite_and_swap v i j p q, ite_and_swap v i j q p]
  ring

lemma sym_upd2_pair2 (A : Nat → Nat → ℚ) (p q r s : Nat) (v w : ℚ)
    (h : ∀ i j, A i j = A j i) :
    ∀ i j, upd2 (upd2 (upd2 (upd2 A p q v) r s w) q p v) s r w i j =
           upd2 (upd2 (upd2 (upd2 A p q v) r s w) q p v) s r w j i := by
  intro i j
  simp only [upd2_apply]
  rw [h i j, ite_and_swap v i j p q, ite_and_swap w i j r s,
    ite_and_swap v i j q p, ite_and_swap w i j s r]
  ring

lemma stampR_symm (ni : String → Option Nat) (A : Nat → Nat → ℚ) (r : Resistor)
    (h : ∀ i j, A i j = A j i) : ∀ i j, stampR ni A r i j = stampR ni A r j i := by
  unfold stampR
  cases ni r.a with
  | none =>
    cases ni r.b with
    | none => exact h
    | some ib => exact sym_upd2_diag A ib _ h
  | some ia =>
    cases ni r.b with
    | none => exact sym_upd2_diag A ia _ h
    | some ib =>
      exact sym_upd2_pair _ ia ib _
        (sym_upd2_diag _ ib _ (sym_upd2_diag A ia _ h))

lemma stampV1_symm (ni : String → Option Nat) (col : Nat) (v : VSource)
    (A : Nat → Nat → ℚ) (h : ∀ i j, A i j = A j i) :
    ∀ i j, stampV1 ni col v A i j = stampV1 ni col v A j i := by
  unfold stampV1
  cases ni v.a with
  | none =>
    cases ni v.b with
    | none => exact h
    | some rb => exact sym_upd2_pair A rb col _ h
  | some ra =>
    cases ni v.b with
    | none => exact sym_upd2_pair A ra col _ h
    | some rb => exact sym_upd2_pair2 A ra col rb col 1 (-1) h

lemma stampResistors_symm (ni : String → Option Nat) (els : List Element) :
    ∀ A A2, stampResistors ni els A = .ok A2 → (∀ i j, A i j = A j i) →
      ∀ i j, A2 i j = A2 j i := by
  induction els with
  | nil =>
    intro A A2 hok h
    simp only [stampResistors] at hok
    exact (Except.ok.inj hok) ▸ h
  | cons e rest ih =>
    intro A A2 hok h
    cases e with
    | R r =>
      by_cases h0 : r.ohms ≤ 0
      · simp only [stampResistors, if_pos h0] at hok
        exact Except.noConfusion hok
      · simp only [stampResistors, if_neg h0] at hok
        exact ih _ A2 hok (stampR_symm ni A r h)
    | V v =>
      simp only [stampResistors] at hok
      exact ih _ A2 hok h
    | I s =>
      simp only [stampResistors] at hok
      exact ih _ A2 hok h

lemma stampVSources_symm (ni : String → Option Nat) (m : Nat) :
    ∀ (vs : List VSource) (idx : Nat) Az, (∀ i j, Az.1 i j = Az.1 j i) →
      ∀ i j, (stampVSources ni m vs idx Az).1 i j =
             (stampVSources ni m vs idx Az).1 j i := by
  intro vs
  induction vs with
  | nil => intro idx Az h; exact h
  | cons v rest ih =>
    intro idx Az h
    simp only [stampVSources]
    exact ih (idx + 1) _ (stampV1_symm ni (m + idx) v Az.1 h)

lemma ref_not_mem_vuNodes (c : Circuit) (ref : String) : ref ∉ vuNodes c ref := by
  simp [vuNodes]

lemma mem_vuNodes (c : Circuit) (ref n : String) :
    n ∈ vuNodes c ref ↔ n ∈ c.nodes ∧ n ≠ ref := by
  simp [vuNodes]

lemma writeV_not_mem (x : List ℚ) :
    ∀ (l : List String) (i : Nat) (V : String → Option ℚ) (s : String),
      s ∉ l → writeV x l i V s = V s := by
  intro l
  induction l with
  | nil => intro i V s _; rfl
  | cons n rest ih =>
    intro i V s hs
    have hs2 : s ∉ rest := fun hm => hs (List.mem_cons_of_mem n hm)
    have hsn : s ≠ n := fun he => hs (he ▸ List.mem_cons_self n rest)
    simp only [writeV]
    rw [ih (i + 1) _ s hs2]
    simp [updS, hsn]

lemma writeV_mem (x : List ℚ) :
    ∀ (l : List String) (i : Nat) (V : String → Option ℚ) (s : String),
      l.Nodup → s ∈ l → writeV x l i V s = some (x.getD (i + l.indexOf s) 0) := by
  intro l
  induction l with
  | nil => intro i V s _ hm; exact absurd hm (List.not_mem_nil _)
  | cons n rest ih =>
    intro i V s hnd hm
    rcases List.mem_cons.mp hm with heq | hm2
    · subst heq
      simp only [writeV]
      rw [writeV_not_mem x rest (i + 1) _ s ((List.nodup_cons.mp hnd).1)]
      simp [updS, List.indexOf_cons_self]
    · have hne : s ≠ n := by
        intro he
        exact (List.nodup_cons.mp hnd).1 (he ▸ hm2)
      simp only [writeV]
      rw [ih (i + 1) _ s (List.nodup_cons.mp hnd).2 hm2]
      have harith : i + (n :: rest).indexOf s = (i + 1) + rest.indexOf s := by
        rw [List.indexOf_cons_ne _ (fun he => hne he.symm)]
        omega
      rw [harith]

lemma writeIres_not_mem (V : String → Option ℚ) :
    ∀ (els : List Element) (I : String → Option ℚ) (s : String),
      (∀ r2 : Resistor, Element.R r2 ∈ els → r2.id ≠ s) →
      writeIres V els I s = I s := by
  intro els
  induction els with
  | nil => intro I s _; rfl
  | cons e rest ih =>
    intro I s hno
    cases e with
    | R r2 =>
      simp only [writeIres]
      rw [ih _ s (fun r3 hm => hno r3 (List.mem_cons_of_mem _ hm))]
      have hne : r2.id ≠ s := hno r2 (List.mem_cons_self _ _)
      simp only [updS]
      rw [if_neg (fun he => hne he.symm)]
    | V v =>
      simp only [writeIres]
      exact ih I s (fun r3 hm => hno r3 (List.mem_cons_of_mem _ hm))
    | I s2 =>
      simp only [writeIres]
      exact ih I s (fun r3 hm => hno r3 (List.mem_cons_of_mem _ hm))

lemma writeIcs_not_mem :
    ∀ (els : List Element) (I : String → Option ℚ) (s : String),
      (∀ s2 : ISource, Element.I s2 ∈ els → s2.id ≠ s) →
      writeIcs els I s = I s := by
  intro els
  induction els with
  | nil => intro I s _; rfl
  | cons e rest ih =>
    intro I s hno
    cases e with
    | R r2 =>
      simp only [writeIcs]
      exact ih I s (fun s3 hm => hno s3 (List.mem_cons_of_mem _ hm))
    | V v =>
      simp only [writeIcs]
      exact ih I s (fun s3 hm => hno s3 (List.mem_cons_of_mem _ hm))
    | I s2 =>
      simp only [writeIcs]
      rw [ih _ s (fun s3 hm => hno s3 (List.mem_cons_of_mem _ hm))]
      have hne : s2.id ≠ s := hno s2 (List.mem_cons_self _ _)
      simp only [updS]
      rw [if_neg (fun he => hne he.symm)]

lemma elemId_not_mem_tail {e : Element} {rest : List Element}
    (hnd : ((e :: rest).map elemId).Nodup) :
    ∀ e2 ∈ rest, elemId e2 ≠ elemId e := by
  intro e2 hm he
  simp only [List.map_cons, List.nodup_cons] at hnd
  exact hnd.1 (he ▸ List.mem_map_of_mem elemId hm)

lemma writeIres_mem (V : String → Option ℚ) :
    ∀ (els : List Element) (I : String → Option ℚ) (r : Resistor),
      (els.map elemId).Nodup → Element.R r ∈ els →
      writeIres V els I r.id =
        some (((V r.a).getD 0 - (V r.b).getD 0) / r.ohms) := by
  intro els
  induction els with
  | nil => intro I r _ hm; exact absurd hm (List.not_mem_nil _)
  | cons e rest ih =>
    intro I r hnd hm
    have hnd2 : (rest.map elemId).Nodup := by
      simp only [List.map_cons, List.nodup_cons] at hnd
      exact hnd.2
    rcases List.mem_cons.mp hm with heq | hm2
    · subst heq
      simp only [writeIres]
      rw [writeIres_not_mem V rest _ r.id
        (fun r3 hm3 => elemId_not_mem_tail hnd (Element.R r3) hm3)]
      simp [updS]
    · cases e with
      | R r2 =>
        simp only [writeIres]
        exact ih _ r hnd2 hm2
      | V v =>
        simp only [writeIres]
        exact ih I r hnd2 hm2
      | I s2 =>
        simp only [writeIres]
        exact ih I r hnd2 hm2

lemma writeIcs_mem :
    ∀ (els : List Element) (I : String → Option ℚ) (cs : ISource),
      (els.map elemId).Nodup → Element.I cs ∈ els →
      writeIcs els I cs.id = some cs.amps := by
  intro els
  induction els with
  | nil => intro I cs _ hm; exact absurd hm (List.not_mem_nil _)
  | cons e rest ih =>
    intro I cs hnd hm
    have hnd2 : (rest.map elemId).Nodup := by
      simp only [List.map_cons, List.nodup_cons] at hnd
      exact hnd.2
    rcases List.mem_cons.mp hm with heq | hm2
    · subst heq
      simp only [writeIcs]
      rw [writeIcs_not_mem rest _ cs.id
        (fun s3 hm3 => elemId_not_mem_tail hnd (Element.I s3) hm3)]
      simp [updS]
    · cases e with
      | R r2 =>
        simp only [writeIcs]
        exact ih I cs hnd2 hm2
      | V v =>
        simp only [writeIcs]
        exact ih I cs hnd2 hm2
      | I s2 =>
        simp only [writeIcs]
        exact ih _ cs hnd2 hm2

lemma solve_ok_elim (c : Circuit) (refOpt : Option String) (sol : Solution)
    (h : solveCircuitMNA c refOpt = .ok sol) :
    ∃ x, solveVec c (refOpt.getD (pickRefNode c.nodes)) = .ok x ∧
      sol = buildSolution c (refOpt.getD (pickRefNode c.nodes)) x ∧
      ¬ c.nodes.length < 2 ∧ (refOpt.getD (pickRefNode c.nodes)) ∈ c.nodes := by
  by_cases h2 : c.nodes.length < 2
  · simp only [solveCircuitMNA, if_pos h2] at h
    exact Except.noConfusion h
  · by_cases href : (refOpt.getD (pickRefNode c.nodes)) ∈ c.nodes
    · simp only [solveCircuitMNA, if_neg h2, if_pos href] at h
      cases hv : solveVec c (refOpt.getD (pickRefNode c.nodes)) with
      | error e =>
        rw [hv] at h
        exact Except.noConfusion h
      | ok x =>
        rw [hv] at h
        exact ⟨x, rfl, (Except.ok.inj h).symm, h2, href⟩
    · simp only [solveCircuitMNA, if_neg h2, if_neg href] at h
      exact Except.noConfusion h

lemma stampR_swap (ni : String → Option Nat) (A : Nat → Nat → ℚ) (r : Resistor) :
    stampR ni A (swapAB r) = stampR ni A r := by
  funext i j
  simp only [stampR, swapAB]
  cases ha : ni r.a <;> cases hb : ni r.b <;> simp only [ha, hb] <;>
    simp only [upd2_apply] <;> ring

lemma stampResistors_append (ni : String → Option Nat) :
    ∀ (l1 l2 : List Element) (A : Nat → Nat → ℚ),
      stampResistors ni (l1 ++ l2) A =
        match stampResistors ni l1 A with
        | .error e => .error e
        | .ok A2 => stampResistors ni l2 A2 := by
  intro l1
  induction l1 with
  | nil => intro l2 A; rfl
  | cons e rest ih =>
    intro l2 A
    cases e with
    | R r =>
      by_cases h0 : r.ohms ≤ 0
      · simp only [List.cons_append, stampResistors, if_pos h0]
      · simp only [List.cons_append, stampResistors, if_neg h0]
        exact ih l2 _
    | V v =>
      simp only [List.cons_append, stampResistors]
      exact ih l2 A
    | I s =>
      simp only [List.cons_append, stampResistors]
      exact ih l2 A

lemma stampResistors_swap (ni : String → Option Nat) (pre post : List Element)
    (r : Resistor) (A0 : Nat → Nat → ℚ) :
    stampResistors ni (pre ++ Element.R (swapAB r) :: post) A0 =
    stampResistors ni (pre ++ Element.R r :: post) A0 := by
  rw [stampResistors_append, stampResistors_append]
  cases stampResistors ni pre A0 with
  | error e => rfl
  | ok A1 =>
    by_cases h0 : r.ohms ≤ 0
    · simp only [stampResistors, swapAB, if_pos h0]
    · simp only [stampResistors, swapAB, if_neg h0]
      rw [show stampR ni A1 { id := r.id, a := r.b, b := r.a, ohms := r.ohms } = stampR ni A1 r from stampR_swap ni A1 r]

lemma vSourcesOf_swap (pre post : List Element) (r : Resistor) :
    vSourcesOf (pre ++ Element.R (swapAB r) :: post) =
    vSourcesOf (pre ++ Element.R r :: post) := by
  simp [vSourcesOf, List.filterMap_append, List.filterMap_cons]

lemma stampISources_append (ni : String → Option Nat) :
    ∀ (l1 l2 : List Element) (z : Nat → ℚ),
      stampISources ni (l1 ++ l2) z = stampISources ni l2 (stampISources ni l1 z) := by
  intro l1
  induction l1 with
  | nil => intro l2 z; rfl
  | cons e rest ih =>
    intro l2 z
    cases e with
    | R r => simp only [List.cons_append, stampISources]; exact ih l2 z
    | V v => simp only [List.cons_append, stampISources]; exact ih l2 z
    | I s => simp only [List.cons_append, stampISources]; exact ih l2 _

lemma stampISources_swap (ni : String → Option Nat) (pre post : List Element)
    (r r2 : Resistor) (z : Nat → ℚ) :
    stampISources ni (pre ++ Element.R r2 :: post) z =
    stampISources ni (pre ++ Element.R r :: post) z := by
  rw [stampISources_append, stampISources_append]
  rfl

lemma assemble_swap (nodes : List String) (pre post : List Element)
    (r : Resistor) (ref : String) :
    assemble ⟨nodes, pre ++ Element.R (swapAB r) :: post⟩ ref =
    assemble ⟨nodes, pre ++ Element.R r :: post⟩ ref := by
  simp only [assemble]
  rw [show nodeIdx ⟨nodes, pre ++ Element.R (swapAB r) :: post⟩ ref =
        nodeIdx ⟨nodes, pre ++ Element.R r :: post⟩ ref from rfl]
  rw [stampResistors_swap]
  cases stampResistors (nodeIdx ⟨nodes, pre ++ Element.R r :: post⟩ ref)
      (pre ++ Element.R r :: post) (fun _ _ => 0) with
  | error e => rfl
  | ok A0 =>
    rw [stampISources_swap _ pre post r (swapAB r), vSourcesOf_swap]
    rw [show vuNodes ⟨nodes, pre ++ Element.R (swapAB r) :: post⟩ ref =
          vuNodes ⟨nodes, pre ++ Element.R r :: post⟩ ref from rfl]

lemma solveVec_swap (nodes : List String) (pre post : List Element)
    (r : Resistor) (ref : String) :
    solveVec ⟨nodes, pre ++ Element.R (swapAB r) :: post⟩ ref =
    solveVec ⟨nodes, pre ++ Element.R r :: post⟩ ref := by
  simp only [solveVec, dimN]
  rw [assemble_swap]
  cases assemble ⟨nodes, pre ++ Element.R r :: post⟩ ref with
  | error e => rfl
  | ok Az =>
    rw [vSourcesOf_swap]
    rw [show vuNodes ⟨nodes, pre ++ Element.R (swapAB r) :: post⟩ ref =
          vuNodes ⟨nodes, pre ++ Element.R r :: post⟩ ref from rfl]

lemma buildSolution_swap_V (nodes : List String) (pre post : List Element)
    (r : Resistor) (ref : String) (x : List ℚ) :
    (buildSolution ⟨nodes, pre ++ Element.R (swapAB r) :: post⟩ ref x).V =
    (buildSolution ⟨nodes, pre ++ Element.R r :: post⟩ ref x).V := rfl

lemma solve_swap_core (nodes : List String) (pre post : List Element)
    (r : Resistor) (refOpt : Option String) :
    (∀ e, solveCircuitMNA ⟨nodes, pre ++ Element.R (swapAB r) :: post⟩ refOpt = .error e ↔
          solveCircuitMNA ⟨nodes, pre ++ Element.R r :: post⟩ refOpt = .error e) ∧
    (∀ sol, solveCircuitMNA ⟨nodes, pre ++ Element.R r :: post⟩ refOpt = .ok sol →
       ∃ sol2, solveCircuitMNA ⟨nodes, pre ++ Element.R (swapAB r) :: post⟩ refOpt = .ok sol2 ∧
         sol2.refNode = sol.refNode ∧ (∀ nd, sol2.V nd = sol.V nd)) := by
  by_cases h2 : nodes.length < 2
  · constructor
    · intro e
      simp only [solveCircuitMNA, if_pos h2]
    · intro sol hsol
      simp only [solveCircuitMNA, if_pos h2] at hsol
      exact Except.noConfusion hsol
  · by_cases href : refOpt.getD (pickRefNode nodes) ∈ nodes
    · have hu : ∀ els : List Element,
          solveCircuitMNA ⟨nodes, els⟩ refOpt =
            match solveVec ⟨nodes, els⟩ (refOpt.getD (pickRefNode nodes)) with
            | .error e => .error e
            | .ok x => .ok (buildSolution ⟨nodes, els⟩ (refOpt.getD (pickRefNode nodes)) x) := by
        intro els
        simp only [solveCircuitMNA, if_neg h2, if_pos href]
      rw [hu, hu, solveVec_swap]
      cases solveVec ⟨nodes, pre ++ Element.R r :: post⟩ (refOpt.getD (pickRefNode nodes)) with
      | error e =>
        constructor
        · intro e2
          exact Iff.rfl
        · intro sol hsol
          exact Except.noConfusion hsol
      | ok x =>
        constructor
        · intro e2
          constructor
          · intro hx
            exact Except.noConfusion hx
          · intro hx
            exact Except.noConfusion hx
        · intro sol hsol
          refine ⟨buildSolution ⟨nodes, pre ++ Element.R (swapAB r) :: post⟩
            (refOpt.getD (pickRefNode nodes)) x, rfl, ?_, ?_⟩
          · rw [← Except.ok.inj hsol]
            rfl
          · intro nd
            rw [← Except.ok.inj hsol]
            rfl
    · constructor
      · intro e
        simp only [solveCircuitMNA, if_neg h2, if_neg href]
      · intro sol hsol
        simp only [solveCircuitMNA, if_neg h2, if_neg href] at hsol
        exact Except.noConfusion hsol

lemma voltageDiff_congr (sol sol2 : Solution) (hV : ∀ nd, sol2.V nd = sol.V nd)
    (A B : String) : voltageDiff sol2 A B = voltageDiff sol A B := by
  simp [voltageDiff, hV]

lemma req_swap (nodes : List String) (pre post : List Element) (r : Resistor)
    (A B : String) :
    equivalentResistanceAB ⟨nodes, pre ++ Element.R (swapAB r) :: post⟩ A B =
    equivalentResistanceAB ⟨nodes, pre ++ Element.R r :: post⟩ A B := by
  have htrans : ∀ r2 : Resistor,
      (pre ++ Element.R r2 :: post).filterMap reqDeactivate ++
        [Element.I ⟨"I_test", A, B, 1⟩] =
      pre.filterMap reqDeactivate ++ Element.R r2 ::
        (post.filterMap reqDeactivate ++ [Element.I ⟨"I_test", A, B, 1⟩]) := by
    intro r2
    simp [List.filterMap_append, List.filterMap_cons, reqDeactivate]
  obtain ⟨herr, hok⟩ := solve_swap_core nodes (pre.filterMap reqDeactivate)
    (post.filterMap reqDeactivate ++ [Element.I ⟨"I_test", A, B, 1⟩]) r none
  simp only [equivalentResistanceAB, htrans]
  cases hsol : solveCircuitMNA
      ⟨nodes, pre.filterMap reqDeactivate ++ Element.R r ::
        (post.filterMap reqDeactivate ++ [Element.I ⟨"I_test", A, B, 1⟩])⟩ none with
  | error e =>
    rw [(herr e).mpr hsol]
  | ok sol =>
    obtain ⟨sol2, hs2, _, hV⟩ := hok sol hsol
    rw [hs2]
    dsimp only
    rw [voltageDiff_congr sol sol2 hV A B]

lemma writeIres_append (V : String → Option ℚ) :
    ∀ (l1 l2 : List Element) (I : String → Option ℚ),
      writeIres V (l1 ++ l2) I = writeIres V l2 (writeIres V l1 I) := by
  intro l1
  induction l1 with
  | nil => intro l2 I; rfl
  | cons e rest ih =>
    intro l2 I
    cases e with
    | R r => simp only [List.cons_append, writeIres]; exact ih l2 _
    | V v => simp only [List.cons_append, writeIres]; exact ih l2 I
    | I s => simp only [List.cons_append, writeIres]; exact ih l2 I

lemma writeIcs_append :
    ∀ (l1 l2 : List Element) (I : String → Option ℚ),
      writeIcs (l1 ++ l2) I = writeIcs l2 (writeIcs l1 I) := by
  intro l1
  induction l1 with
  | nil => intro l2 I; rfl
  | cons e rest ih =>
    intro l2 I
    cases e with
    | R r => simp only [List.cons_append, writeIcs]; exact ih l2 I
    | V v => simp only [List.cons_append, writeIcs]; exact ih l2 I
    | I s => simp only [List.cons_append, writeIcs]; exact ih l2 _

lemma writeIcs_swap_congr (pre post : List Element) (r2 r3 : Resistor)
    (I : String → Option ℚ) :
    writeIcs (pre ++ Element.R r2 :: post) I =
    writeIcs (pre ++ Element.R r3 :: post) I := by
  rw [writeIcs_append, writeIcs_append]
  rfl

lemma updS_rel (I J : String → Option ℚ) (rid k : String) (w : ℚ)
    (h1 : ∀ s, s ≠ rid → I s = J s) (h2 : J rid = (I rid).map (fun q => -q))
    (hk : k ≠ rid) :
    (∀ s, s ≠ rid → updS I k w s = updS J k w s) ∧
    updS J k w rid = (updS I k w rid).map (fun q => -q) := by
  constructor
  · intro s hs
    by_cases hsk : s = k
    · simp [updS, hsk]
    · simp only [updS, if_neg hsk]
      exact h1 s hs
  · have hne : ¬ (rid = k) := fun he => hk (Eq.symm he)
    simp only [updS, if_neg hne]
    exact h2

lemma writeIres_rel (V : String → Option ℚ) (rid : String) :
    ∀ (els : List Element) (I J : String → Option ℚ),
      (∀ s, s ≠ rid → I s = J s) → J rid = (I rid).map (fun q => -q) →
      (∀ r2 : Resistor, Element.R r2 ∈ els → r2.id ≠ rid) →
      (∀ s, s ≠ rid → writeIres V els I s = writeIres V els J s) ∧
      writeIres V els J rid = (writeIres V els I rid).map (fun q => -q) := by
  intro els
  induction els with
  | nil => intro I J h1 h2 _; exact ⟨h1, h2⟩
  | cons e rest ih =>
    intro I J h1 h2 hno
    cases e with
    | R r2 =>
      simp only [writeIres]
      have hk : r2.id ≠ rid := hno r2 (List.mem_cons_self _ _)
      obtain ⟨h1b, h2b⟩ := updS_rel I J rid r2.id _ h1 h2 hk
      exact ih _ _ h1b h2b (fun r3 hm => hno r3 (List.mem_cons_of_mem _ hm))
    | V v =>
      simp only [writeIres]
      exact ih I J h1 h2 (fun r3 hm => hno r3 (List.mem_cons_of_mem _ hm))
    | I s =>
      simp only [writeIres]
      exact ih I J h1 h2 (fun r3 hm => hno r3 (List.mem_cons_of_mem _ hm))

lemma writeIcs_rel (rid : String) :
    ∀ (els : List Element) (I J : String → Option ℚ),
      (∀ s, s ≠ rid → I s = J s) → J rid = (I rid).map (fun q => -q) →
      (∀ s2 : ISource, Element.I s2 ∈ els → s2.id ≠ rid) →
      (∀ s, s ≠ rid → writeIcs els I s = writeIcs els J s) ∧
      writeIcs els J rid = (writeIcs els I rid).map (fun q => -q) := by
  intro els
  induction els with
  | nil => intro I J h1 h2 _; exact ⟨h1, h2⟩
  | cons e rest ih =>
    intro I J h1 h2 hno
    cases e with
    | R r2 =>
      simp only [writeIcs]
      exact ih I J h1 h2 (fun s3 hm => hno s3 (List.mem_cons_of_mem _ hm))
    | V v =>
      simp only [writeIcs]
      exact ih I J h1 h2 (fun s3 hm => hno s3 (List.mem_cons_of_mem _ hm))
    | I s2 =>
      simp only [writeIcs]
      have hk : s2.id ≠ rid := hno s2 (List.mem_cons_self _ _)
      obtain ⟨h1b, h2b⟩ := updS_rel I J rid s2.id _ h1 h2 hk
      exact ih _ _ h1b h2b (fun s3 hm => hno s3 (List.mem_cons_of_mem _ hm))

lemma buildSolution_swap_I (nodes : List String) (pre post : List Element)
    (r : Resistor) (ref : String) (x : List ℚ)
    (hids : ((pre ++ Element.R r :: post).map elemId).Nodup) :
    (∀ s, s ≠ r.id →
      (buildSolution ⟨nodes, pre ++ Element.R (swapAB r) :: post⟩ ref x).I s =
      (buildSolution ⟨nodes, pre ++ Element.R r :: post⟩ ref x).I s) ∧
    (buildSolution ⟨nodes, pre ++ Element.R (swapAB r) :: post⟩ ref x).I r.id =
      ((buildSolution ⟨nodes, pre ++ Element.R r :: post⟩ ref x).I r.id).map
        (fun q => -q) := by
  have hmap : (pre ++ Element.R r :: post).map elemId =
      pre.map elemId ++ r.id :: post.map elemId := by
    simp [elemId]
  rw [hmap] at hids
  obtain ⟨hpre, hmid, hdisj⟩ := List.nodup_append.mp hids
  have hnotpost : r.id ∉ post.map elemId := (List.nodup_cons.mp hmid).1
  have hnotpre : r.id ∉ pre.map elemId :=
    fun hin => hdisj hin (List.mem_cons_self _ _)
  have hcondR : ∀ r2 : Resistor, Element.R r2 ∈ post → r2.id ≠ r.id := by
    intro r2 hm heq
    have hmm : r2.id ∈ post.map elemId := List.mem_map_of_mem elemId hm
    exact hnotpost (heq ▸ hmm)
  have hcondI : ∀ s2 : ISource,
      Element.I s2 ∈ pre ++ Element.R r :: post → s2.id ≠ r.id := by
    intro s2 hm heq
    rcases List.mem_append.mp hm with hm1 | hm2
    · have hmm : s2.id ∈ pre.map elemId := List.mem_map_of_mem elemId hm1
      exact hnotpre (heq ▸ hmm)
    · rcases List.mem_cons.mp hm2 with heq2 | hm3
      · exact absurd heq2 (by simp)
      · have hmm : s2.id ∈ post.map elemId := List.mem_map_of_mem elemId hm3
        exact hnotpost (heq ▸ hmm)
  have hIdef : ∀ els2 : List Element, (buildSolution ⟨nodes, els2⟩ ref x).I =
      writeIcs els2
        (writeIres
          (writeV x (vuNodes ⟨nodes, els2⟩ ref) 0 (updS (fun _ => none) ref 0))
          els2
          (writeIvs x (vuNodes ⟨nodes, els2⟩ ref).length (vSourcesOf els2) 0
            (fun _ => none))) :=
    fun _ => rfl
  rw [hIdef, hIdef]
  rw [show vuNodes ⟨nodes, pre ++ Element.R (swapAB r) :: post⟩ ref =
        vuNodes ⟨nodes, pre ++ Element.R r :: post⟩ ref from rfl,
      vSourcesOf_swap]
  set V := writeV x (vuNodes ⟨nodes, pre ++ Element.R r :: post⟩ ref) 0
    (updS (fun _ => none) ref 0) with hVdef
  set I1 := writeIvs x (vuNodes ⟨nodes, pre ++ Element.R r :: post⟩ ref).length
    (vSourcesOf (pre ++ Element.R r :: post)) 0 (fun _ => none) with hI1def
  set w := ((V r.a).getD 0 - (V r.b).getD 0) / r.ohms with hwdef
  have hX : writeIres V (pre ++ Element.R r :: post) I1 =
      writeIres V post (updS (writeIres V pre I1) r.id w) := by
    rw [writeIres_append]
    rfl
  have hval : ((V r.b).getD 0 - (V r.a).getD 0) / r.ohms = -w := by
    rw [hwdef]
    ring
  have hY : writeIres V (pre ++ Element.R (swapAB r) :: post) I1 =
      writeIres V post (updS (writeIres V pre I1) r.id (-w)) := by
    rw [writeIres_append]
    simp only [writeIres, swapAB]
    rw [hval]
  have h1 : ∀ s, s ≠ r.id →
      updS (writeIres V pre I1) r.id w s =
      updS (writeIres V pre I1) r.id (-w) s := by
    intro s hs
    simp [updS, if_neg hs]
  have h2 : updS (writeIres V pre I1) r.id (-w) r.id =
      (updS (writeIres V pre I1) r.id w r.id).map (fun q => -q) := by
    simp [updS]
  obtain ⟨hrel1, hrel2⟩ := writeIres_rel V r.id post
    (updS (writeIres V pre I1) r.id w)
    (updS (writeIres V pre I1) r.id (-w)) h1 h2 hcondR
  rw [hX, hY]
  rw [writeIcs_swap_congr pre post (swapAB r) r]
  obtain ⟨hf1, hf2⟩ := writeIcs_rel r.id (pre ++ Element.R r :: post)
    (writeIres V post (updS (writeIres V pre I1) r.id w))
    (writeIres V post (updS (writeIres V pre I1) r.id (-w)))
    hrel1 hrel2 hcondI
  exact ⟨fun s hs => (hf1 s hs).symm, hf2⟩

lemma qabs_neg (q : ℚ) : qabs (-q) = qabs q := by
  unfold qabs
  rcases lt_trichotomy q 0 with h | h | h
  · rw [if_neg (by linarith), if_pos h]
  · subst h
    norm_num
  · rw [if_pos (by linarith), if_neg (by linarith)]
    ring

lemma findPivot_fold_aux (M : List (List ℚ)) (col : Nat) :
    ∀ (l : List Nat) (acc : Nat × ℚ), acc.2 = qabs (getM M acc.1 col) →
      ((l.foldl (fun acc r =>
          let v := qabs (getM M r col)
          if acc.2 < v then (r, v) else acc) acc).1 = acc.1 ∨
       (l.foldl (fun acc r =>
          let v := qabs (getM M r col)
          if acc.2 < v then (r, v) else acc) acc).1 ∈ l) ∧
      (l.foldl (fun acc r =>
          let v := qabs (getM M r col)
          if acc.2 < v then (r, v) else acc) acc).2 =
        qabs (getM M (l.foldl (fun acc r =>
          let v := qabs (getM M r col)
          if acc.2 < v then (r, v) else acc) acc).1 col) ∧
      acc.2 ≤ (l.foldl (fun acc r =>
          let v := qabs (getM M r col)
          if acc.2 < v then (r, v) else acc) acc).2 ∧
      ∀ r ∈ l, qabs (getM M r col) ≤ (l.foldl (fun acc r =>
          let v := qabs (getM M r col)
          if acc.2 < v then (r, v) else acc) acc).2 := by
  intro l
  induction l with
  | nil =>
    intro acc hacc
    exact ⟨Or.inl rfl, hacc, le_refl _, by simp⟩
  | cons a l ih =>
    intro acc hacc
    simp only [List.foldl_cons]
    by_cases hlt : acc.2 < qabs (getM M a col)
    · have hstep : (if acc.2 < qabs (getM M a col)
          then (a, qabs (getM M a col)) else acc) = (a, qabs (getM M a col)) :=
        if_pos hlt
      rw [hstep]
      obtain ⟨ho, he, hle, hcov⟩ := ih (a, qabs (getM M a col)) rfl
      refine ⟨?_, he, le_trans (le_of_lt hlt) hle, ?_⟩
      · rcases ho with h | h
        · exact Or.inr (by rw [h]; exact List.mem_cons_self a l)
        · exact Or.inr (List.mem_cons_of_mem a h)
      · intro r hr
        rcases List.mem_cons.mp hr with hre | hrm
        · subst hre
          exact hle
        · exact hcov r hrm
    · have hstep : (if acc.2 < qabs (getM M a col)
          then (a, qabs (getM M a col)) else acc) = acc := if_neg hlt
      rw [hstep]
      obtain ⟨ho, he, hle, hcov⟩ := ih acc hacc
      refine ⟨?_, he, hle, ?_⟩
      · rcases ho with h | h
        · exact Or.inl h
        · exact Or.inr (List.mem_cons_of_mem a h)
      · intro r hr
        rcases List.mem_cons.mp hr with hre | hrm
        · subst hre
          exact le_trans (not_lt.mp hlt) hle
        · exact hcov r hrm

lemma findPivot_spec (M : List (List ℚ)) (col n : Nat) (hcol : col < n) :
    (col ≤ (findPivot M col n).1 ∧ (findPivot M col n).1 < n) ∧
    (findPivot M col n).2 = qabs (getM M (findPivot M col n).1 col) ∧
    (∀ rr, col ≤ rr → rr < n → qabs (getM M rr col) ≤ (findPivot M col n).2) := by
  have hfp : findPivot M col n =
      (List.range' (col + 1) (n - (col + 1))).foldl (fun acc r =>
        let v := qabs (getM M r col)
        if acc.2 < v then (r, v) else acc) (col, qabs (getM M col col)) := rfl
  rw [hfp]
  obtain ⟨ho, he, hle, hcov⟩ := findPivot_fold_aux M col
    (List.range' (col + 1) (n - (col + 1))) (col, qabs (getM M col col)) rfl
  have hrange : ∀ m, m ∈ List.range' (col + 1) (n - (col + 1)) ↔
      col + 1 ≤ m ∧ m < n := by
    intro m
    rw [List.mem_range'_1]
    omega
  refine ⟨?_, he, ?_⟩
  · rcases ho with h | h
    · rw [h]
      omega
    · have := (hrange _).mp h
      omega
  · intro rr h1 h2
    rcases Nat.eq_or_lt_of_le h1 with heq | hlt
    · subst heq
      exact hle
    · exact hcov rr ((hrange rr).mpr ⟨hlt, h2⟩)

lemma elimStep_singular_iff (n : Nat) (M : List (List ℚ)) (col : Nat) :
    elimStep n M col = .error .singularMatrix ↔ (findPivot M col n).2 = 0 := by
  simp only [elimStep]
  by_cases h0 : (findPivot M col n).2 = 0
  · simp [h0]
  · simp [h0]

lemma solveLinearSystem_run (A : List (List ℚ)) (b : List ℚ)
    (hsq : ∀ row ∈ A, row.length = A.length) (hb : b.length = A.length) :
    solveLinearSystem A b =
      ((List.range A.length).foldlM (elimStep A.length) (augment A b)).map
        (backSubst A.length) := by
  unfold solveLinearSystem
  rw [dif_pos hsq, dif_pos hb]
  cases (List.range A.length).foldlM (elimStep A.length) (augment A b) with
  | error e => rfl
  | ok M => rfl

lemma backSubstAux_drop (M : List (List ℚ)) (n : Nat) :
    ∀ (i : Nat) (acc : List ℚ), (backSubstAux M n i acc).drop i = acc := by
  intro i
  induction i with
  | zero => intro acc; rfl
  | succ i ih =>
    intro acc
    simp only [backSubstAux]
    have h3 : ∀ (L : List ℚ) (Y : ℚ) (acc3 : List ℚ),
        L.drop i = Y :: acc3 → L.drop (i + 1) = acc3 := by
      intro L Y acc3 hLY
      rw [show L.drop (i + 1) = (L.drop i).drop 1 from by rw [List.drop_drop], hLY]
      rfl
    exact h3 _ _ _ (ih _)

lemma backSubstAux_unroll (M : List (List ℚ)) (n : Nat) :
    ∀ (k i : Nat) (acc : List ℚ), i ≤ k →
      ∃ acc2, backSubstAux M n k acc = backSubstAux M n i acc2 := by
  intro k
  induction k with
  | zero =>
    intro i acc hik
    have : i = 0 := by omega
    subst this
    exact ⟨acc, rfl⟩
  | succ k ih =>
    intro i acc hik
    rcases Nat.eq_or_lt_of_le hik with heq | hlt
    · subst heq
      exact ⟨acc, rfl⟩
    · have hik2 : i ≤ k := by omega
      simp only [backSubstAux]
      exact ih i _ hik2

lemma foldl_sub_eq (f : Nat → ℚ) :
    ∀ (l : List Nat) (a : ℚ), l.foldl (fun s j => s - f j) a = a - (l.map f).sum := by
  intro l
  induction l with
  | nil => intro a; simp
  | cons x l ih =>
    intro a
    simp only [List.foldl_cons, List.map_cons, List.sum_cons]
    rw [ih]
    ring

lemma backSubst_getD (M : List (List ℚ)) (n i : Nat) (hi : i < n) :
    (backSubst n M).getD i 0 =
      (getM M i n -
        ((List.range' (i + 1) (n - (i + 1))).map
          (fun j => getM M i j * (backSubst n M).getD j 0)).sum) / getM M i i := by
  obtain ⟨acc2, hk⟩ := backSubstAux_unroll M n n (i + 1) [] (by omega)
  have hL : backSubst n M = backSubstAux M n (i + 1) acc2 := hk
  have hdrop : (backSubst n M).drop (i + 1) = acc2 := by
    rw [hL]
    exact backSubstAux_drop M n (i + 1) acc2
  have hstep : backSubstAux M n (i + 1) acc2 =
      backSubstAux M n i
        ((((List.range' (i + 1) (n - (i + 1))).foldl
          (fun s j => s - getM M i j * acc2.getD (j - (i + 1)) 0) (getM M i n)) /
            getM M i i) :: acc2) := rfl
  have hacc_el : ∀ j, i + 1 ≤ j → acc2.getD (j - (i + 1)) 0 = (backSubst n M).getD j 0 := by
    intro j hj
    rw [← hdrop]
    rw [List.getD_eq_getElem?_getD, List.getD_eq_getElem?_getD, List.getElem?_drop]
    congr 2
    omega
  have hgd : (backSubst n M).getD i 0 =
      ((List.range' (i + 1) (n - (i + 1))).foldl
        (fun s j => s - getM M i j * acc2.getD (j - (i + 1)) 0) (getM M i n)) /
          getM M i i := by
    have hdropi : (backSubst n M).drop i =
        ((((List.range' (i + 1) (n - (i + 1))).foldl
          (fun s j => s - getM M i j * acc2.getD (j - (i + 1)) 0) (getM M i n)) /
            getM M i i) :: acc2) := by
      rw [hL, hstep]
      exact backSubstAux_drop M n i _
    have hel := congrArg (fun l : List ℚ => l[0]?) hdropi
    simp only [List.getElem?_drop] at hel
    simp only [Nat.add_zero] at hel
    rw [List.getD_eq_getElem?_getD, hel]
    simp
  rw [hgd]
  have hcongr : (List.range' (i + 1) (n - (i + 1))).foldl
      (fun s j => s - getM M i j * acc2.getD (j - (i + 1)) 0) (getM M i n) =
    (List.range' (i + 1) (n - (i + 1))).foldl
      (fun s j => s - getM M i j * (backSubst n M).getD j 0) (getM M i n) := by
    apply List.foldl_ext
    intro a j hj
    rw [hacc_el j (by
      have := List.mem_range'_1.mp hj
      omega)]
  rw [hcongr, foldl_sub_eq (fun j => getM M i j * (backSubst n M).getD j 0)]

/-! ## Claim theorems -/

/-- C6: for the two-node circuit with a 100 Ω and a 300 Ω resistor in
parallel between `A` and `B`, `equivalentResistanceAB` returns exactly 75
(1/Req = 1/100 + 1/300), and the inner solve of the transformed circuit
yields the same value whether node `A` or node `B` is taken as the
reference node. -/
theorem C6_parallel_req :
    equivalentResistanceAB parCircuit "A" "B" = .ok 75 ∧
    (solveCircuitMNA
        ⟨parCircuit.nodes,
         parCircuit.elements.filterMap reqDeactivate ++
           [Element.I ⟨"I_test", "A", "B", 1⟩]⟩
        (some "A")).map (fun s => qabs (voltageDiff s "A" "B")) = .ok 75 ∧
    (solveCircuitMNA
        ⟨parCircuit.nodes,
         parCircuit.elements.filterMap reqDeactivate ++
           [Element.I ⟨"I_test", "A", "B", 1⟩]⟩
        (some "B")).map (fun s => qabs (voltageDiff s "A" "B")) = .ok 75 := by
  refine ⟨?_, ?_, ?_⟩ <;> with_unfolding_all decide

/-- C7: the downstream validation check accepts exactly when
`|got − expected| ≤ abs` or `|got − expected| / max(ε, |expected|) ≤ rel`,
the default tolerances are abs = rel = 0.01, and the floor ε = 1e-12
protecting the division is positive. -/
theorem C7_tolerance_check (e g : ℚ) (t : Tolerances) :
    ((check e g t).ok = true ↔
      qabs (g - e) ≤ t.abs ∨ qabs (g - e) / max epsFloor (qabs e) ≤ t.rel) ∧
    defaultTol.abs = 1 / 100 ∧ defaultTol.rel = 1 / 100 ∧ 0 < epsFloor := by
  refine ⟨?_, rfl, rfl, by norm_num [epsFloor]⟩
  simp [check]

/-- C2: `equivalentResistanceAB` solves the transformed circuit obtained by
keeping resistors, shorting voltage sources (volts = 0), dropping current
sources, and appending a synthetic 1 A current source from `A` to `B`, and
returns `|V(A) − V(B)|` of that inner solution, which is never negative. -/
theorem C2_req_transform (c : Circuit) (A B : String) :
    (equivalentResistanceAB c A B =
      (solveCircuitMNA
          ⟨c.nodes,
           c.elements.filterMap reqDeactivateSpec ++
             [Element.I ⟨"I_test", A, B, 1⟩]⟩
          none).map (fun sol => qabs (voltageDiff sol A B))) ∧
    (∀ r, reqDeactivateSpec (.R r) = some (.R r)) ∧
    (∀ v, reqDeactivateSpec (.V v) = some (.V ⟨v.id, v.a, v.b, 0⟩)) ∧
    (∀ s, reqDeactivateSpec (.I s) = none) ∧
    (∀ q, equivalentResistanceAB c A B = .ok q → 0 ≤ q) := by
  refine ⟨?_, fun r => rfl, fun v => rfl, fun s => rfl, ?_⟩
  · rw [← reqDeactivate_eq_spec]
    cases h : solveCircuitMNA
        ⟨c.nodes,
         c.elements.filterMap reqDeactivate ++ [Element.I ⟨"I_test", A, B, 1⟩]⟩
        none with
    | error e => simp [equivalentResistanceAB, h, Except.map]
    | ok sol => simp [equivalentResistanceAB, h, Except.map]
  · intro q hq
    cases h : solveCircuitMNA
        ⟨c.nodes,
         c.elements.filterMap reqDeactivate ++ [Element.I ⟨"I_test", A, B, 1⟩]⟩
        none with
    | error e =>
      simp only [equivalentResistanceAB, h] at hq
      exact Except.noConfusion hq
    | ok sol =>
      simp only [equivalentResistanceAB, h] at hq
      exact (Except.ok.inj hq) ▸ qabs_nonneg _

/-- C2 witness: on the parallel circuit the Req result is `ok 75` and the
theorem's nonnegativity clause applies to it. -/
theorem C2_req_transform_witness :
    equivalentResistanceAB parCircuit "A" "B" = .ok 75 ∧ (0 : ℚ) ≤ 75 :=
  ⟨by with_unfolding_all decide,
   (C2_req_transform parCircuit "A" "B").2.2.2.2 75 (by with_unfolding_all decide)⟩

/-- C8: a circuit with at least two nodes and a valid reference node that
contains a resistor with non-positive resistance makes `solveCircuitMNA`
fail with `invalidElement`. -/
theorem C8_invalid_element (c : Circuit) (refOpt : Option String) (r : Resistor)
    (h2 : 2 ≤ c.nodes.length)
    (href : (refOpt.getD (pickRefNode c.nodes)) ∈ c.nodes)
    (hmem : Element.R r ∈ c.elements) (hle : r.ohms ≤ 0) :
    ∃ i, solveCircuitMNA c refOpt = .error (.invalidElement i) := by
  obtain ⟨i, hi⟩ :=
    stampResistors_bad (nodeIdx c (refOpt.getD (pickRefNode c.nodes)))
      c.elements (fun _ _ => 0) r hmem hle
  refine ⟨i, ?_⟩
  simp only [solveCircuitMNA, if_neg (by omega : ¬ c.nodes.length < 2), if_pos href,
    solveVec, assemble, hi]

/-- C8 witness: the concrete two-node circuit with a 0 Ω resistor fails
with `invalidElement`. -/
theorem C8_invalid_element_witness :
    2 ≤ badOhms.nodes.length ∧
    ((none : Option String).getD (pickRefNode badOhms.nodes)) ∈ badOhms.nodes ∧
    Element.R ⟨"Rbad", "n1", "0", 0⟩ ∈ badOhms.elements ∧
    (⟨"Rbad", "n1", "0", 0⟩ : Resistor).ohms ≤ 0 ∧
    ∃ i, solveCircuitMNA badOhms none = .error (.invalidElement i) :=
  ⟨by with_unfolding_all decide, by with_unfolding_all decide,
   by with_unfolding_all decide, by with_unfolding_all decide,
   C8_invalid_element badOhms none ⟨"Rbad", "n1", "0", 0⟩
     (by with_unfolding_all decide) (by with_unfolding_all decide)
     (by with_unfolding_all decide) (by with_unfolding_all decide)⟩

/-- C9: the assembled matrix handed to the linear solver is always N×N with
a length-N right-hand side (N = non-reference node count plus voltage-source
count), and consequently `solveCircuitMNA` can never fail with
`dimensionMismatch`. -/
theorem C9_dimension_safety :
    (∀ (Af : Nat → Nat → ℚ) (zf : Nat → ℚ) (N : Nat),
       (toMat Af N).length = N ∧ (∀ row ∈ toMat Af N, row.length = N) ∧
       (toVec zf N).length = N) ∧
    (∀ c refOpt, solveCircuitMNA c refOpt ≠ .error .dimensionMismatch) := by
  constructor
  · intro Af zf N
    refine ⟨by simp [toMat], ?_, by simp [toVec]⟩
    intro row hrow
    simp only [toMat, List.mem_map, List.mem_range] at hrow
    obtain ⟨i, _, rfl⟩ := hrow
    simp
  · intro c refOpt h
    by_cases h2 : c.nodes.length < 2
    · simp only [solveCircuitMNA, if_pos h2] at h
      exact MnaError.noConfusion (Except.error.inj h)
    · by_cases href : (refOpt.getD (pickRefNode c.nodes)) ∈ c.nodes
      · simp only [solveCircuitMNA, if_neg h2, if_pos href] at h
        cases hv : solveVec c (refOpt.getD (pickRefNode c.nodes)) with
        | error e =>
          rw [hv] at h
          exact solveVec_not_dim c _ ((Except.error.inj h) ▸ hv)
        | ok x =>
          rw [hv] at h
          exact Except.noConfusion h
      · simp only [solveCircuitMNA, if_neg h2, if_neg href] at h
        exact MnaError.noConfusion (Except.error.inj h)

/-- C9 witness: the divider circuit does not fail with
`dimensionMismatch`. -/
theorem C9_dimension_safety_witness :
    solveCircuitMNA divider none ≠ .error .dimensionMismatch :=
  C9_dimension_safety.2 divider none

/-- C3: with no reference supplied, the solver takes the first entry of
["0", "GND", "gnd", "ref", "REF"] present in the node list and otherwise the
first node; a supplied reference node absent from the node list makes
`solveCircuitMNA` fail with `invalidReferenceNode`. -/
theorem C3_ref_node_selection :
    (∀ nodes : List String, 2 ≤ nodes.length →
       pickRefNode nodes =
         if "0" ∈ nodes then "0"
         else if "GND" ∈ nodes then "GND"
         else if "gnd" ∈ nodes then "gnd"
         else if "ref" ∈ nodes then "ref"
         else if "REF" ∈ nodes then "REF"
         else nodes.headD "") ∧
    (∀ nodes : List String, 2 ≤ nodes.length →
       (∀ p ∈ preferredRefs, p ∉ nodes) → pickRefNode nodes = nodes.headD "") ∧
    (∀ (c : Circuit) (r : String), 2 ≤ c.nodes.length → r ∉ c.nodes →
       solveCircuitMNA c (some r) = .error (.invalidReferenceNode r)) ∧
    (∀ (c : Circuit) (sol : Solution), solveCircuitMNA c none = .ok sol →
       sol.refNode = pickRefNode c.nodes) := by
  have hpick : ∀ nodes : List String,
      pickRefNode nodes =
        if "0" ∈ nodes then "0"
        else if "GND" ∈ nodes then "GND"
        else if "gnd" ∈ nodes then "gnd"
        else if "ref" ∈ nodes then "ref"
        else if "REF" ∈ nodes then "REF"
        else nodes.headD "" := by
    intro nodes
    by_cases h0 : "0" ∈ nodes
    · simp [pickRefNode, preferredRefs, List.find?_cons, h0]
    · by_cases h1 : "GND" ∈ nodes
      · simp [pickRefNode, preferredRefs, List.find?_cons, h0, h1]
      · by_cases h2 : "gnd" ∈ nodes
        · simp [pickRefNode, preferredRefs, List.find?_cons, h0, h1, h2]
        · by_cases h3 : "ref" ∈ nodes
          · simp [pickRefNode, preferredRefs, List.find?_cons, h0, h1, h2, h3]
          · by_cases h4 : "REF" ∈ nodes
            · simp [pickRefNode, preferredRefs, List.find?_cons, h0, h1, h2, h3, h4]
            · simp [pickRefNode, preferredRefs, List.find?_cons, h0, h1, h2, h3, h4]
  refine ⟨fun nodes _ => hpick nodes, ?_, ?_, ?_⟩
  · intro nodes _ habs
    rw [hpick nodes]
    simp only [preferredRefs] at habs
    have h0 := habs "0" (by simp)
    have h1 := habs "GND" (by simp)
    have h2 := habs "gnd" (by simp)
    have h3 := habs "ref" (by simp)
    have h4 := habs "REF" (by simp)
    simp [h0, h1, h2, h3, h4]
  · intro c r h2 hnr
    simp only [solveCircuitMNA, if_neg (by omega : ¬ c.nodes.length < 2),
      Option.getD_some, if_neg hnr]
  · intro c sol h
    by_cases h2 : c.nodes.length < 2
    · simp only [solveCircuitMNA, if_pos h2] at h
      exact Except.noConfusion h
    · by_cases href : pickRefNode c.nodes ∈ c.nodes
      · simp only [solveCircuitMNA, if_neg h2, Option.getD_none, if_pos href] at h
        cases hv : solveVec c (pickRefNode c.nodes) with
        | error e =>
          rw [hv] at h
          exact Except.noConfusion h
        | ok x =>
          rw [hv] at h
          rw [← Except.ok.inj h]
          rfl
      · simp only [solveCircuitMNA, if_neg h2, Option.getD_none, if_neg href] at h
        exact Except.noConfusion h

/-- C1: on success, the reconstructed Solution satisfies the spec's rules:
the reference node maps to 0, every other node maps to its entry of the raw
unknown vector, every resistor's current is recomputed by Ohm's law from the
already-solved voltages, and every current source reports its own `amps`. -/
theorem C1_reconstruction (c : Circuit) (refOpt : Option String) (sol : Solution)
    (hnodes : c.nodes.Nodup) (hids : (c.elements.map elemId).Nodup)
    (h : solveCircuitMNA c refOpt = .ok sol) :
    sol.V sol.refNode = some 0 ∧
    (∃ x, solveVec c sol.refNode = .ok x ∧
       ∀ nd ∈ c.nodes, nd ≠ sol.refNode →
         sol.V nd = some (x.getD ((vuNodes c sol.refNode).indexOf nd) 0)) ∧
    (∀ r : Resistor, Element.R r ∈ c.elements →
       sol.I r.id = some (((sol.V r.a).getD 0 - (sol.V r.b).getD 0) / r.ohms)) ∧
    (∀ s : ISource, Element.I s ∈ c.elements → sol.I s.id = some s.amps) := by
  obtain ⟨x, hv, hsol, _h2, _href⟩ := solve_ok_elim c refOpt sol h
  subst hsol
  have hrefeq : (buildSolution c (refOpt.getD (pickRefNode c.nodes)) x).refNode =
      refOpt.getD (pickRefNode c.nodes) := rfl
  have hV : (buildSolution c (refOpt.getD (pickRefNode c.nodes)) x).V =
      writeV x (vuNodes c (refOpt.getD (pickRefNode c.nodes))) 0
        (updS (fun _ => none) (refOpt.getD (pickRefNode c.nodes)) 0) := rfl
  have hI : (buildSolution c (refOpt.getD (pickRefNode c.nodes)) x).I =
      writeIcs c.elements
        (writeIres
          (writeV x (vuNodes c (refOpt.getD (pickRefNode c.nodes))) 0
            (updS (fun _ => none) (refOpt.getD (pickRefNode c.nodes)) 0))
          c.elements
          (writeIvs x (vuNodes c (refOpt.getD (pickRefNode c.nodes))).length
            (vSourcesOf c.elements) 0 (fun _ => none))) := rfl
  refine ⟨?_, ⟨x, ?_, ?_⟩, ?_, ?_⟩
  · rw [hrefeq, hV,
      writeV_not_mem x _ 0 _ _ (ref_not_mem_vuNodes c _)]
    simp [updS]
  · rw [hrefeq]
    exact hv
  · intro nd hnd hne
    rw [hrefeq] at hne ⊢
    have hnodup : (vuNodes c (refOpt.getD (pickRefNode c.nodes))).Nodup :=
      hnodes.filter _
    rw [hV, writeV_mem x _ 0 _ nd hnodup
      ((mem_vuNodes c _ nd).mpr ⟨hnd, hne⟩)]
    rw [Nat.zero_add]
  · intro r hr
    have hnotcs : ∀ s2 : ISource, Element.I s2 ∈ c.elements → s2.id ≠ r.id := by
      intro s2 hm2 heq
      have hne : Element.I s2 ≠ Element.R r := by simp
      exact hne (List.inj_on_of_nodup_map hids hm2 hr heq)
    rw [hI, writeIcs_not_mem c.elements _ r.id hnotcs,
      writeIres_mem _ c.elements _ r hids hr, hV]
  · intro s hs
    rw [hI]
    exact writeIcs_mem c.elements _ s hids hs

/-- C1 witness: on the divider circuit the hypotheses hold and the
reference node of the returned solution maps to voltage 0. -/
theorem C1_reconstruction_witness :
    divider.nodes.Nodup ∧ (divider.elements.map elemId).Nodup ∧
    (exceptD (solveCircuitMNA divider none) defSol).V
      (exceptD (solveCircuitMNA divider none) defSol).refNode = some 0 :=
  ⟨by with_unfolding_all decide, by with_unfolding_all decide,
   (C1_reconstruction divider none (exceptD (solveCircuitMNA divider none) defSol)
     (by with_unfolding_all decide) (by with_unfolding_all decide)
     (by with_unfolding_all rfl)).1⟩

/-- C10: the assembled MNA matrix is symmetric: resistor stamps add equal
off-diagonal pairs, and each voltage source's KCL-coupling column entries
mirror its constraint-row entries, so `A[i][j] = A[j][i]` for all `i, j`. -/
theorem C10_matrix_symmetry (c : Circuit) (ref : String) (A : Nat → Nat → ℚ)
    (z : Nat → ℚ) (h : assemble c ref = .ok (A, z)) :
    ∀ i j, A i j = A j i := by
  cases hs : stampResistors (nodeIdx c ref) c.elements (fun _ _ => 0) with
  | error e =>
    simp only [assemble, hs] at h
    exact Except.noConfusion h
  | ok A0 =>
    simp only [assemble, hs] at h
    have h0 : ∀ i j, A0 i j = A0 j i :=
      stampResistors_symm (nodeIdx c ref) c.elements _ A0 hs (fun i j => rfl)
    have hA : (stampVSources (nodeIdx c ref) (vuNodes c ref).length
        (vSourcesOf c.elements) 0
        (A0, stampISources (nodeIdx c ref) c.elements (fun _ => 0))).1 = A :=
      congrArg Prod.fst (Except.ok.inj h)
    intro i j
    rw [← hA]
    exact stampVSources_symm (nodeIdx c ref) (vuNodes c ref).length
      (vSourcesOf c.elements) 0 (A0, stampISources (nodeIdx c ref) c.elements (fun _ => 0))
      h0 i j

/-- C10 witness: the assembled matrix of the divider circuit is symmetric at
the concrete index pair (0, 1). -/
theorem C10_matrix_symmetry_witness :
    (exceptD (assemble divider "0") (fun _ _ => 0, fun _ => 0)).1 0 1 =
    (exceptD (assemble divider "0") (fun _ _ => 0, fun _ => 0)).1 1 0 :=
  C10_matrix_symmetry divider "0"
    (exceptD (assemble divider "0") (fun _ _ => 0, fun _ => 0)).1
    (exceptD (assemble divider "0") (fun _ _ => 0, fun _ => 0)).2
    (by with_unfolding_all rfl) 0 1

/-- C3 witness: on the divider circuit, a supplied reference node `"zz"`
absent from the nodes yields `invalidReferenceNode "zz"`. -/
theorem C3_ref_node_selection_witness :
    2 ≤ divider.nodes.length ∧ "zz" ∉ divider.nodes ∧
    solveCircuitMNA divider (some "zz") = .error (.invalidReferenceNode "zz") :=
  ⟨by with_unfolding_all decide, by with_unfolding_all decide,
   C3_ref_node_selection.2.2.1 divider "zz"
     (by with_unfolding_all decide) (by with_unfolding_all decide)⟩

/-- C5: swapping the `a`/`b` endpoints of one resistor negates that
resistor's reported current, leaves its magnitude, every node voltage and
every other current unchanged, and leaves every `equivalentResistanceAB`
result on the circuit unchanged. -/
theorem C5_resistor_swap (c : Circuit) (refOpt : Option String)
    (pre post : List Element) (r : Resistor)
    (hshape : c.elements = pre ++ Element.R r :: post)
    (hids : (c.elements.map elemId).Nodup) :
    (∀ sol, solveCircuitMNA c refOpt = .ok sol →
       ∃ sol2, solveCircuitMNA ⟨c.nodes, pre ++ Element.R (swapAB r) :: post⟩
           refOpt = .ok sol2 ∧
         sol2.refNode = sol.refNode ∧
         (∀ nd, sol2.V nd = sol.V nd) ∧
         sol2.I r.id = (sol.I r.id).map (fun q => -q) ∧
         (sol2.I r.id).map qabs = (sol.I r.id).map qabs ∧
         (∀ i2, i2 ≠ r.id → sol2.I i2 = sol.I i2)) ∧
    (∀ A B, equivalentResistanceAB
        ⟨c.nodes, pre ++ Element.R (swapAB r) :: post⟩ A B =
      equivalentResistanceAB c A B) := by
  obtain ⟨ns, els⟩ := c
  simp only at hshape hids
  subst hshape
  constructor
  · intro sol hsol
    obtain ⟨x, hv, hsoldef, h2, href⟩ := solve_ok_elim _ refOpt sol hsol
    have hv2 : solveVec ⟨ns, pre ++ Element.R (swapAB r) :: post⟩
        (refOpt.getD (pickRefNode ns)) = .ok x := by
      rw [solveVec_swap]
      exact hv
    have hsolve2 : solveCircuitMNA ⟨ns, pre ++ Element.R (swapAB r) :: post⟩
        refOpt = .ok (buildSolution ⟨ns, pre ++ Element.R (swapAB r) :: post⟩
          (refOpt.getD (pickRefNode ns)) x) := by
      simp only [solveCircuitMNA, if_neg h2, if_pos href, hv2]
    obtain ⟨hothers, hneg⟩ := buildSolution_swap_I ns pre post r
      (refOpt.getD (pickRefNode ns)) x hids
    subst hsoldef
    refine ⟨buildSolution ⟨ns, pre ++ Element.R (swapAB r) :: post⟩
      (refOpt.getD (pickRefNode ns)) x, hsolve2, rfl, fun nd => rfl, hneg, ?_, hothers⟩
    rw [hneg]
    cases (buildSolution ⟨ns, pre ++ Element.R r :: post⟩
        (refOpt.getD (pickRefNode ns)) x).I r.id with
    | none => rfl
    | some q => simp [qabs_neg]
  · intro A B
    exact req_swap ns pre post r A B

/-- C5 witness: on the divider circuit, swapping `R1`'s endpoints leaves the
Req value between `n1` and `0` unchanged. -/
theorem C5_resistor_swap_witness :
    divider.elements =
      [Element.V ⟨"V1", "n1", "0", 10⟩] ++
        Element.R ⟨"R1", "n1", "n2", 1000⟩ :: [Element.R ⟨"R2", "n2", "0", 1000⟩] ∧
    (divider.elements.map elemId).Nodup ∧
    equivalentResistanceAB
        ⟨divider.nodes,
         [Element.V ⟨"V1", "n1", "0", 10⟩] ++
           Element.R (swapAB ⟨"R1", "n1", "n2", 1000⟩) ::
             [Element.R ⟨"R2", "n2", "0", 1000⟩]⟩ "n1" "0" =
      equivalentResistanceAB divider "n1" "0" :=
  ⟨rfl, by with_unfolding_all decide,
   (C5_resistor_swap divider none [Element.V ⟨"V1", "n1", "0", 10⟩]
     [Element.R ⟨"R2", "n2", "0", 1000⟩] ⟨"R1", "n1", "n2", 1000⟩ rfl
     (by with_unfolding_all decide)).2 "n1" "0"⟩

/-- C4: the linear solver performs forward elimination with partial
pivoting -- at each column the selected pivot row lies at or below the
diagonal and maximizes the absolute column value; a step fails with
`singularMatrix` exactly when that maximal pivot magnitude is exactly zero;
on accepted inputs the solve is the chained elimination followed by
back-substitution, whose entry `i` is computed from the already-resolved
later unknowns. -/
theorem C4_gaussian_elimination (A : List (List ℚ)) (b : List ℚ)
    (hsq : ∀ row ∈ A, row.length = A.length) (hb : b.length = A.length) :
    (∀ (M : List (List ℚ)) (col : Nat), col < A.length →
       (col ≤ (findPivot M col A.length).1 ∧ (findPivot M col A.length).1 < A.length) ∧
       (findPivot M col A.length).2 =
         qabs (getM M (findPivot M col A.length).1 col) ∧
       (∀ rr, col ≤ rr → rr < A.length →
          qabs (getM M rr col) ≤ (findPivot M col A.length).2)) ∧
    (∀ (M : List (List ℚ)) (col : Nat),
       (elimStep A.length M col = .error .singularMatrix ↔
         (findPivot M col A.length).2 = 0) ∧
       (∀ e, elimStep A.length M col = .error e → e = .singularMatrix)) ∧
    (solveLinearSystem A b =
      ((List.range A.length).foldlM (elimStep A.length) (augment A b)).map
        (backSubst A.length)) ∧
    (∀ (M : List (List ℚ)) (i : Nat), i < A.length →
       (backSubst A.length M).getD i 0 =
         (getM M i A.length -
           ((List.range' (i + 1) (A.length - (i + 1))).map
             (fun j => getM M i j * (backSubst A.length M).getD j 0)).sum) /
           getM M i i) :=
  ⟨fun M col hcol => findPivot_spec M col A.length hcol,
   fun M col => ⟨elimStep_singular_iff A.length M col,
     fun e he => elimStep_error_eq A.length M col e he⟩,
   solveLinearSystem_run A b hsq hb,
   fun M i hi => backSubst_getD M A.length i hi⟩

/-- C4 witness: a concrete 2×2 system satisfies the validity hypotheses and
runs as elimination followed by back-substitution. -/
theorem C4_gaussian_elimination_witness :
    (∀ row ∈ [[(2 : ℚ), 1], [1, 3]], row.length = 2) ∧
    ([(3 : ℚ), 4] : List ℚ).length = 2 ∧
    solveLinearSystem [[(2 : ℚ), 1], [1, 3]] [3, 4] =
      ((List.range 2).foldlM (elimStep 2)
        (augment [[(2 : ℚ), 1], [1, 3]] [3, 4])).map (backSubst 2) :=
  ⟨by with_unfolding_all decide, by with_unfolding_all decide,
   (C4_gaussian_elimination [[(2 : ℚ), 1], [1, 3]] [3, 4]
     (by with_unfolding_all decide) (by with_unfolding_all decide)).2.2.1⟩
end Circuits
